import Mathlib

/-!
Verification development for the Orb witness/anchoring node.

The development shallowly embeds the parts of the repository that the
verified properties are about:

* the witness-policy engine (parser, evaluator, selector and cache of
  `pkg/anchor/witness/policy`; the implementation is not in the source
  tree, only its tests, so these definitions are modelled from the
  specification and cross-checked against the test expectations),
* the HTTP ingress subscriber (`pkg/pubsub/httpsubscriber`),
* the policy REST handler (`pkg/anchor/policy/resthandler`),
* the AMQP redelivery logic (modelled from the specification; only its
  tests are in the source tree).
-/

namespace Orb

/-- Lifecycle states of the lifecycle controller (`pkg/lifecycle`):
`NotStarted → Started → Stopping → Stopped`. -/
inductive LState
  | notStarted
  | started
  | stopping
  | stopped
deriving DecidableEq, Repr

namespace Policy

/-- Witness role: `WitnessTypeBatch` or `WitnessTypeSystem`. -/
inductive WitnessType
  | batch
  | system
deriving DecidableEq, Repr

/-- A witness: role, URI (opaque string) and whether it is backed by a
transparency log. -/
structure Witness where
  wtype : WitnessType
  uri : String
  hasLog : Bool
deriving DecidableEq, Repr

/-- A witness together with its proof bytes.  A proof is present iff the
byte sequence is non-empty. -/
structure WitnessProof where
  witness : Witness
  proof : List Nat
deriving DecidableEq, Repr

/-- Modelled from the spec: a policy leaf, `MinPercent(p, role)` or
`OutOf(n, role)`; the role is carried by the position of the rule in the
parsed configuration. -/
inductive Rule
  | minPercent (p : Nat)
  | outOf (n : Nat)
deriving DecidableEq, Repr

/-- Boolean connective joining the batch rule and the system rule. -/
inductive Op
  | conj
  | disj
deriving DecidableEq, Repr

/-- Modelled from the spec: the parsed witness-policy configuration
(`pkg/anchor/witness/policy/config` is not in the source tree).  In the
grammar a policy combines one batch leaf and one system leaf with `AND`
or `OR`, optionally flagged `LogRequired`. -/
structure WitnessPolicyConfig where
  batchRule : Rule
  systemRule : Rule
  op : Op
  logRequired : Bool
deriving DecidableEq, Repr

/-- The default policy for empty input: 100% of batch witnesses and 100%
of system witnesses, no log requirement. -/
def defaultConfig : WitnessPolicyConfig :=
  { batchRule := .minPercent 100
    systemRule := .minPercent 100
    op := .conj
    logRequired := false }

/-- Does a witness pass the `LogRequired` filter? -/
def logOk (logRequired : Bool) (w : Witness) : Bool :=
  !logRequired || w.hasLog

/-- The witness proofs of the given role (partition by type). -/
def roleProofs (proofs : List WitnessProof) (t : WitnessType) : List WitnessProof :=
  proofs.filter (fun wp => wp.witness.wtype == t)

/-- Number of present (non-empty) proofs contributed by witnesses that
pass the `LogRequired` filter.  Per the repository's tests a witness
lacking a log never contributes a proof, but it still counts towards the
size of the role set (the test with a single no-log batch witness under
the default policy with `LogRequired` expects `false`, not a vacuous
`true`). -/
def presentCount (cfg : WitnessPolicyConfig) (l : List WitnessProof) : Nat :=
  (l.filter (fun wp => logOk cfg.logRequired wp.witness && !wp.proof.isEmpty)).length

/-- Satisfaction of a leaf given the number of role witnesses `n` and the
number of present proofs `c` among them. -/
def ruleHoldsCnt (r : Rule) (n c : Nat) : Bool :=
  match r with
  | .minPercent p => n == 0 || decide (p * n ≤ c * 100)
  | .outOf m => decide (m ≤ c)

/-- Modelled from the spec: satisfaction of a leaf on a role witness set:
`MinPercent(p)` is satisfied iff the set is empty or `count·100 ≥ p·|W|`;
`OutOf(n)` iff `count ≥ n`, where `count` only counts proofs of witnesses
passing the `LogRequired` filter. -/
def ruleHolds (cfg : WitnessPolicyConfig) (r : Rule) (w : List WitnessProof) : Bool :=
  ruleHoldsCnt r w.length (presentCount cfg w)

/-- Modelled from the spec: `Evaluate` of a parsed policy against a proof
set: partition by role, check each leaf and combine with the policy's
connective. -/
def evaluate (cfg : WitnessPolicyConfig) (proofs : List WitnessProof) : Bool :=
  let b := ruleHolds cfg cfg.batchRule (roleProofs proofs .batch)
  let s := ruleHolds cfg cfg.systemRule (roleProofs proofs .system)
  match cfg.op with
  | .conj => b && s
  | .disj => b || s

/-- The spec's reading of a `MinPercent` leaf, in which the role set `W`
itself is restricted by the `LogRequired` filter before its size is
taken.  Kept for comparison with the repository behaviour (`ruleHolds`);
the two disagree when a role consists only of witnesses without logs. -/
def specMinPercentHolds (cfg : WitnessPolicyConfig) (p : Nat)
    (proofs : List WitnessProof) (t : WitnessType) : Bool :=
  let w := (roleProofs proofs t).filter (fun wp => logOk cfg.logRequired wp.witness)
  w.length == 0 || decide (p * w.length ≤ presentCount cfg w * 100)

/-- `Evaluate` as the spec's words describe it (with `specMinPercentHolds`
for `MinPercent` leaves). -/
def specEvaluate (cfg : WitnessPolicyConfig) (proofs : List WitnessProof) : Bool :=
  let leaf := fun (r : Rule) (t : WitnessType) =>
    match r with
    | .minPercent p => specMinPercentHolds cfg p proofs t
    | .outOf m => decide (m ≤ presentCount cfg (roleProofs proofs t))
  let b := leaf cfg.batchRule .batch
  let s := leaf cfg.systemRule .system
  match cfg.op with
  | .conj => b && s
  | .disj => b || s

/-- The rule the configuration applies to a role. -/
def ruleOf (cfg : WitnessPolicyConfig) (t : WitnessType) : Rule :=
  match t with
  | .batch => cfg.batchRule
  | .system => cfg.systemRule

/-- `⌈p·n/100⌉`, the number of proofs a `MinPercent(p)` leaf requires on a
role pool of size `n`. -/
def ceilPct (p n : Nat) : Nat :=
  (p * n + 99) / 100

/-- Modelled from the spec: the number of witnesses a leaf requires:
`n` for `OutOf(n)` and `⌈p·|W|/100⌉` for `MinPercent(p)`. -/
def requiredCount (r : Rule) (poolLen : Nat) : Nat :=
  match r with
  | .minPercent p => ceilPct p poolLen
  | .outOf n => n

/-- All witnesses of a role. -/
def roleAll (ws : List Witness) (t : WitnessType) : List Witness :=
  ws.filter (fun w => w.wtype == t)

/-- The witnesses of a role that pass the `LogRequired` filter; only
these may be selected. -/
def rolePoolLog (cfg : WitnessPolicyConfig) (ws : List Witness)
    (t : WitnessType) : List Witness :=
  (roleAll ws t).filter (logOk cfg.logRequired)

/-- Exclusion identity: URI and role. -/
def sameWitness (a b : Witness) : Bool :=
  a.uri == b.uri && a.wtype == b.wtype

/-- The witnesses of a role eligible for selection: the log-filtered role
pool minus the excluded witnesses. -/
def eligiblePool (cfg : WitnessPolicyConfig) (ws excl : List Witness)
    (t : WitnessType) : List Witness :=
  (rolePoolLog cfg ws t).filter (fun w => !excl.any (sameWitness w))

/-- The number of witnesses the policy requires from a role.  Per the
repository's tests the `MinPercent` requirement is computed from the full
role pool, before exclusions (excluding the only system witness under the
default policy yields `unable to select 1 witnesses from witness array of
length 0`, so the requirement stays 1 even though the eligible pool is
empty). -/
def reqOf (cfg : WitnessPolicyConfig) (ws : List Witness) (t : WitnessType) : Nat :=
  requiredCount (ruleOf cfg t) (roleAll ws t).length

/-- A branch of an `OR` policy can be chosen iff its role has witnesses
at all and enough eligible witnesses remain; this matches the repository
test in which the single system witness is selected although the (empty)
batch branch would require zero witnesses. -/
def viable (cfg : WitnessPolicyConfig) (ws excl : List Witness)
    (t : WitnessType) : Bool :=
  decide (reqOf cfg ws t ≤ (eligiblePool cfg ws excl t).length)
    && !(roleAll ws t).isEmpty

/-- Failure data of `Select`, reported as
`unable to select N witnesses from witness array of length M`. -/
structure SelectErr where
  required : Nat
  available : Nat
deriving DecidableEq, Repr

/-- Pick `req` witnesses from the eligible pool in input order; fail when
the pool is too small. -/
def pickRole (req : Nat) (elig : List Witness) : Except SelectErr (List Witness) :=
  if elig.length < req then .error ⟨req, elig.length⟩ else .ok (elig.take req)

/-- Modelled from the spec: `Select(available, exclusions…)`.  For `AND`
both role requirements are picked (batch first); for `OR` the viable
branch with the smaller requirement is chosen (batch preferred on a
tie); if no branch is viable, selection fails. -/
def select (cfg : WitnessPolicyConfig) (ws excl : List Witness) :
    Except SelectErr (List Witness) :=
  let reqB := reqOf cfg ws .batch
  let reqS := reqOf cfg ws .system
  let eligB := eligiblePool cfg ws excl .batch
  let eligS := eligiblePool cfg ws excl .system
  match cfg.op with
  | .conj =>
    match pickRole reqB eligB with
    | .error e => .error e
    | .ok sb =>
      match pickRole reqS eligS with
      | .error e => .error e
      | .ok ss => .ok (sb ++ ss)
  | .disj =>
      if viable cfg ws excl .batch && (!viable cfg ws excl .system || decide (reqB ≤ reqS)) then
        .ok (eligB.take reqB)
      else if viable cfg ws excl .system then
        .ok (eligS.take reqS)
      else
        .error ⟨reqB, eligB.length⟩

/-- The proof set in which exactly the witnesses of `chosen` have a
proof: every available witness appears, with a one-byte proof iff it was
chosen. -/
def asIfProofs (ws chosen : List Witness) : List WitnessProof :=
  ws.map (fun w => ⟨w, if w ∈ chosen then [1] else []⟩)

/-- The number of witnesses of role `t` that pass the log filter and lie
in `X` — the present-proof count `evaluate` sees on `asIfProofs ws X`. -/
def cntIn (cfg : WitnessPolicyConfig) (ws : List Witness) (t : WitnessType)
    (X : List Witness) : Nat :=
  ((rolePoolLog cfg ws t).filter (fun w => decide (w ∈ X))).length

end Policy

namespace HttpSubscriber

/-- Default size of `pubChan` and `msgChan` (`defaultBufferSize`). -/
def defaultBufferSize : Nat := 100

/-- Outcome of the authentication cascade in `handleMessage`:
either the token verifier accepts, or the HTTP-signature verifier is
consulted and accepts (yielding the actor IRI), errors, or rejects. -/
inductive AuthOutcome
  | tokenVerified
  | sigVerified (actor : String)
  | sigError
  | sigInvalid
deriving DecidableEq, Repr

/-- The event `respond` observes first while waiting on its `select`:
the message's ack, its nack, cancellation of the request context, or the
subscriber's stop signal. -/
inductive RespondEvent
  | acked
  | nacked
  | ctxDone
  | stopped
deriving DecidableEq, Repr

/-- Result of handling one HTTP POST: either a response status was
written, or the handler is blocked in the buffered-channel send inside
`publish` (a full `pubChan` blocks; it does not fail). -/
inductive HandlerOutcome
  | status (n : Nat)
  | blockedOnPublish
deriving DecidableEq, Repr

/-- The status `respond` writes for each event (`httpsubscriber.respond`):
ack → 200, nack → 500, request-context done → 500, stopped → 503. -/
def respondStatus : RespondEvent → Nat
  | .acked => 200
  | .nacked => 500
  | .ctxDone => 500
  | .stopped => 503

/-- Outcome of `Subscriber.publish`: `ErrNotStarted` when the lifecycle
state is not `Started`; otherwise a send on the buffered `pubChan`,
which completes if the buffer has room and blocks while it is full. -/
inductive PublishOutcome
  | errNotStarted
  | sent
  | blocked
deriving DecidableEq, Repr

/-- `Subscriber.publish`, given the lifecycle state and the current
occupancy `pubLen` of the buffered channel of capacity `cap`. -/
def publishOutcome (st : LState) (pubLen cap : Nat) : PublishOutcome :=
  if st ≠ .started then .errNotStarted
  else if pubLen < cap then .sent
  else .blocked

/-- `Subscriber.handleMessage`: the authentication cascade (signature
error → 500, invalid signature → 401), unmarshalling (error → 400),
`publish` (`ErrNotStarted` → 503; a full buffer blocks), then `respond`
with the first observed event. -/
def handleMessage (auth : AuthOutcome) (unmarshalOk : Bool) (st : LState)
    (pubLen cap : Nat) (ev : RespondEvent) : HandlerOutcome :=
  match auth with
  | .sigError => .status 500
  | .sigInvalid => .status 401
  | _ =>
    if !unmarshalOk then .status 400
    else
      match publishOutcome st pubLen cap with
      | .errNotStarted => .status 503
      | .blocked => .blockedOnPublish
      | .sent => .status (respondStatus ev)

/-- State of the publisher goroutine: looping in its `select`, blocked in
the send `msgChan <- msg`, or returned (after closing `done`). -/
inductive PubState
  | running
  | sending
  | exited
deriving DecidableEq, Repr

/-- State of `stop`: not yet called, waiting on `done` after closing
`stopped`, or finished after closing `msgChan`. -/
inductive StopState
  | idle
  | waitingDone
  | finished
deriving DecidableEq, Repr

/-- Joint state of the subscriber's stop/publisher handshake: the
publisher goroutine, the `stop` routine, and the three signals
(`stopped`, `done` and closure of `msgChan`). -/
structure SubSt where
  pub : PubState
  stp : StopState
  stoppedClosed : Bool
  doneClosed : Bool
  msgChanClosed : Bool
deriving DecidableEq, Repr

/-- The initial state after `New`/`Start`: the publisher loop is running,
no channel is closed. -/
def initSt : SubSt :=
  { pub := .running
    stp := .idle
    stoppedClosed := false
    doneClosed := false
    msgChanClosed := false }

/-- One step of the stop/publisher handshake, following the source:
`stop` closes `stopped`, then waits for `done` before closing `msgChan`;
the publisher loop either picks a message from `pubChan` and sends it to
`msgChan`, or observes `stopped`, closes `done` and returns. -/
inductive Step : SubSt → SubSt → Prop
  | stopBegin (s : SubSt) :
      s.stp = .idle →
      Step s { s with stp := .waitingDone, stoppedClosed := true }
  | stopFinish (s : SubSt) :
      s.stp = .waitingDone → s.doneClosed = true →
      Step s { s with stp := .finished, msgChanClosed := true }
  | pubRecv (s : SubSt) :
      s.pub = .running →
      Step s { s with pub := .sending }
  | pubSendDone (s : SubSt) :
      s.pub = .sending →
      Step s { s with pub := .running }
  | pubStop (s : SubSt) :
      s.pub = .running → s.stoppedClosed = true →
      Step s { s with pub := .exited, doneClosed := true }

/-- States reachable from the initial state. -/
inductive Reachable : SubSt → Prop
  | init : Reachable initSt
  | step {s s' : SubSt} : Reachable s → Step s s' → Reachable s'

end HttpSubscriber

namespace Policy

/-- A recognised token of the policy DSL. -/
inductive PToken
  | andTok
  | orTok
  | logTok
  | minPercentTok (p : Nat) (role : WitnessType)
  | outOfTok (n : Nat) (role : WitnessType)
deriving DecidableEq, Repr

/-- Strip an expected sequence of leading characters, returning the
remainder when all of them match. -/
def stripTag : List Char → List Char → Option (List Char)
  | [], rest => some rest
  | _ :: _, [] => none
  | e :: es, c :: cs => if c = e then stripTag es cs else none

/-- Parse a non-empty run of decimal digits. -/
def parseNat : List Char → Option Nat
  | [] => none
  | cs =>
    cs.foldl
      (fun acc c =>
        acc.bind (fun n =>
          if '0' ≤ c ∧ c ≤ '9' then some (n * 10 + (c.toNat - 48)) else none))
      (some 0)

/-- Parse a role name, `batch` or `system`. -/
def parseRole (cs : List Char) : Option WitnessType :=
  if cs = "batch".data then some .batch
  else if cs = "system".data then some .system
  else none

/-- Parse `INT , ROLE )` — the argument list of a leaf rule, with the
closing parenthesis. -/
def parseRuleArgs (cs : List Char) : Option (Nat × WitnessType) :=
  match cs.splitOn ',' with
  | [numCs, roleCs] =>
    match roleCs.reverse with
    | ')' :: roleRev =>
      (parseNat numCs).bind (fun n =>
        (parseRole roleRev.reverse).map (fun r => (n, r)))
    | _ => none
  | _ => none

/-- Modelled from the spec: recognise one whitespace-separated token of
the policy DSL (`config.Parse` is not in the source tree).  `MinPercent`
accepts integers in `[0,100]` only. -/
def parseToken (tok : String) : Option PToken :=
  if tok = "AND" then some .andTok
  else if tok = "OR" then some .orTok
  else if tok = "LogRequired" then some .logTok
  else
    match stripTag "MinPercent(".data tok.data with
    | some rest =>
      (parseRuleArgs rest).bind (fun nr =>
        if nr.1 ≤ 100 then some (.minPercentTok nr.1 nr.2) else none)
    | none =>
      match stripTag "OutOf(".data tok.data with
      | some rest => (parseRuleArgs rest).map (fun nr => .outOfTok nr.1 nr.2)
      | none => none

/-- The whitespace-separated tokens of a policy string. -/
def policyTokens (s : String) : List String :=
  ((s.data.splitOn ' ').filter (fun t => !t.isEmpty)).map String.mk

/-- Apply a recognised token to the configuration being built. -/
def applyTok (cfg : WitnessPolicyConfig) : PToken → WitnessPolicyConfig
  | .andTok => { cfg with op := .conj }
  | .orTok => { cfg with op := .disj }
  | .logTok => { cfg with logRequired := true }
  | .minPercentTok p .batch => { cfg with batchRule := .minPercent p }
  | .minPercentTok p .system => { cfg with systemRule := .minPercent p }
  | .outOfTok n .batch => { cfg with batchRule := .outOf n }
  | .outOfTok n .system => { cfg with systemRule := .outOf n }

/-- Modelled from the spec: `config.Parse`.  Empty input yields the
default policy; a token that is not a supported rule fails with
`rule not supported: <token>`; otherwise the tokens refine the default
configuration. -/
def Parse (s : String) : Except String WitnessPolicyConfig :=
  let toks := policyTokens s
  match toks.find? (fun t => (parseToken t).isNone) with
  | some t => .error ("rule not supported: " ++ t)
  | none =>
    .ok (toks.foldl
      (fun cfg t =>
        match parseToken t with
        | some pt => applyTok cfg pt
        | none => cfg)
      defaultConfig)

/-- A value held by the policy cache, as seen through its `interface{}`
result: absent (`nil`), a policy string, or a value of some other
dynamic type. -/
inductive CacheValue
  | nilValue
  | strValue (s : String)
  | otherValue (typeName : String)
deriving DecidableEq, Repr

/-- Modelled from the spec: `getWitnessPolicyConfig`, given the result of
the cache's `Get`.  A cache error is wrapped; a `nil` value and a value
of non-string dynamic type produce the documented errors; a string is
parsed. -/
def getWitnessPolicyConfig (cacheGet : Except String CacheValue) :
    Except String WitnessPolicyConfig :=
  match cacheGet with
  | .error e => .error ("failed to retrieve policy from policy cache: " ++ e)
  | .ok .nilValue => .error "failed to retrieve policy from policy cache (nil value)"
  | .ok (.strValue s) => Parse s
  | .ok (.otherValue typeName) =>
    .error ("unexpected interface '" ++ typeName ++ "' for witness policy value in policy cache")

end Policy

namespace PolicyRestHandler

/-- The configuration-store key under which the witness policy is stored
(`policy.WitnessPolicyKey`). -/
def witnessPolicyKey : String := "witness-policy"

/-- The response of the `/policy` POST handler: the written status and
body, plus the `Put` calls issued to the config store (key and value). -/
structure HandleResult where
  status : Nat
  body : String
  puts : List (String × String)
deriving DecidableEq, Repr

/-- `PolicyConfigurator.handle`: read the body (error → 400), parse it as
a witness policy (error → 400, nothing stored), then `Put` it into the
config store (error → 500), and finally 200.  The body read, the parser
and the store are the handler's collaborators and are passed in. -/
def handle (bodyResult : Except String String)
    (parse : String → Except String Policy.WitnessPolicyConfig)
    (putResult : String → Except String Unit) : HandleResult :=
  match bodyResult with
  | .error _ => ⟨400, "Bad Request.", []⟩
  | .ok policyBytes =>
    match parse policyBytes with
    | .error _ => ⟨400, "Bad Request.", []⟩
    | .ok _ =>
      match putResult policyBytes with
      | .error _ => ⟨500, "Internal Server Error.", [(witnessPolicyKey, policyBytes)]⟩
      | .ok _ => ⟨200, "", [(witnessPolicyKey, policyBytes)]⟩

end PolicyRestHandler

namespace Amqp

/-- Modelled from the spec: the dispatch trace of a message whose
consumer always Nacks, starting from delivery-attempt header `k`: the
message is dispatched, and after the Nack it is redelivered with header
`k+1` unless that exceeds `maxAttempts`. -/
def redeliveryRun (maxAttempts : Nat) (k : Nat) : List Nat :=
  if h : k < maxAttempts then
    k :: redeliveryRun maxAttempts (k + 1)
  else
    [k]
termination_by maxAttempts - k

/-- Modelled from the spec: all dispatches of an always-Nacked message,
beginning with the initial delivery (header 0). -/
def redeliveryDispatches (maxAttempts : Nat) : List Nat :=
  redeliveryRun maxAttempts 0

/-- Modelled from the spec: the backoff value after repeated
multiplication, starting from the initial interval. -/
def redeliveryBackoff (initial mult : ℚ) : Nat → ℚ
  | 0 => initial
  | n + 1 => redeliveryBackoff initial mult n * mult

/-- Modelled from the spec: `getRedeliveryInterval` — zero for attempt 0,
otherwise the multiplied backoff capped at the maximum interval. -/
def getRedeliveryInterval (initial mult maxI : ℚ) (k : Nat) : ℚ :=
  if k = 0 then 0 else min (redeliveryBackoff initial mult (k - 1)) maxI

/-- Default redelivery parameters, in milliseconds, matching the values
exercised by `TestPubSub_GetInterval` (initial 2 s, multiplier 1.5,
maximum 1 min). -/
def defaultRedeliveryInitialInterval : ℚ := 2000

/-- Default redelivery multiplier. -/
def defaultRedeliveryMultiplier : ℚ := 3 / 2

/-- Default maximum redelivery interval, in milliseconds. -/
def defaultMaxRedeliveryInterval : ℚ := 60000

end Amqp

/-! ### Theorems -/

namespace Amqp

lemma redeliveryRun_length (maxA : Nat) :
    ∀ n k, maxA - k = n → k ≤ maxA → (redeliveryRun maxA k).length = maxA + 1 - k := by
  intro n
  induction n with
  | zero =>
    intro k hn hk
    have hk' : k = maxA := by omega
    rw [redeliveryRun]
    simp [hk']
  | succ m ih =>
    intro k hn hk
    have hlt : k < maxA := by omega
    rw [redeliveryRun]
    simp only [hlt, dif_pos, List.length_cons]
    rw [ih (k + 1) (by omega) (by omega)]
    omega

lemma redeliveryRun_bounded (maxA : Nat) :
    ∀ n k, maxA - k = n → k ≤ maxA →
      (redeliveryRun maxA k).all (fun j => decide (j ≤ maxA)) = true := by
  intro n
  induction n with
  | zero =>
    intro k hn hk
    rw [redeliveryRun]
    have hk' : ¬ k < maxA := by omega
    simp [hk', hk]
  | succ m ih =>
    intro k hn hk
    have hlt : k < maxA := by omega
    rw [redeliveryRun]
    simp only [hlt, dif_pos, List.all_cons, Bool.and_eq_true, decide_eq_true_eq]
    exact ⟨by omega, ih (k + 1) (by omega) (by omega)⟩

/-- C2: a message whose consumer Nacks every delivery is dispatched
exactly `MaxRedeliveryAttempts + 1` times, and no dispatch carries a
delivery-attempt header exceeding `MaxRedeliveryAttempts` (redelivery
halts once the header would exceed the maximum). -/
theorem c2_redelivery_dispatches (maxAttempts : Nat) :
    (redeliveryDispatches maxAttempts).length = maxAttempts + 1 ∧
    (redeliveryDispatches maxAttempts).all (fun j => decide (j ≤ maxAttempts)) = true := by
  constructor
  · have h := redeliveryRun_length maxAttempts (maxAttempts - 0) 0 rfl (Nat.zero_le _)
    simpa [redeliveryDispatches] using h
  · exact redeliveryRun_bounded maxAttempts (maxAttempts - 0) 0 rfl (Nat.zero_le _)

lemma redeliveryBackoff_eq (initial mult : ℚ) :
    ∀ n, redeliveryBackoff initial mult n = initial * mult ^ n := by
  intro n
  induction n with
  | zero => simp [redeliveryBackoff]
  | succ m ih =>
    rw [redeliveryBackoff, ih, pow_succ, mul_assoc]

/-- C5: the redelivery interval is 0 for attempt 0 and
`min(RedeliveryInitialInterval · RedeliveryMultiplier^(k-1),
MaxRedeliveryInterval)` for attempt `k ≥ 1`; at the default parameters
this gives the intervals 0, 2000 ms, 3000 ms and 4500 ms observed for
attempts 0–3. -/
theorem c5_redelivery_interval (initial mult maxI : ℚ) (k : Nat) :
    getRedeliveryInterval initial mult maxI 0 = 0 ∧
    getRedeliveryInterval initial mult maxI (k + 1) = min (initial * mult ^ k) maxI ∧
    getRedeliveryInterval defaultRedeliveryInitialInterval defaultRedeliveryMultiplier
      defaultMaxRedeliveryInterval 0 = 0 ∧
    getRedeliveryInterval defaultRedeliveryInitialInterval defaultRedeliveryMultiplier
      defaultMaxRedeliveryInterval 1 = 2000 ∧
    getRedeliveryInterval defaultRedeliveryInitialInterval defaultRedeliveryMultiplier
      defaultMaxRedeliveryInterval 2 = 3000 ∧
    getRedeliveryInterval defaultRedeliveryInitialInterval defaultRedeliveryMultiplier
      defaultMaxRedeliveryInterval 3 = 4500 := by
  refine ⟨by simp [getRedeliveryInterval], ?_, by simp [getRedeliveryInterval], ?_, ?_, ?_⟩
  · simp [getRedeliveryInterval, redeliveryBackoff_eq]
  · norm_num [getRedeliveryInterval, redeliveryBackoff, defaultRedeliveryInitialInterval,
      defaultRedeliveryMultiplier, defaultMaxRedeliveryInterval]
  · norm_num [getRedeliveryInterval, redeliveryBackoff, defaultRedeliveryInitialInterval,
      defaultRedeliveryMultiplier, defaultMaxRedeliveryInterval]
  · norm_num [getRedeliveryInterval, redeliveryBackoff, defaultRedeliveryInitialInterval,
      defaultRedeliveryMultiplier, defaultMaxRedeliveryInterval]

end Amqp

namespace HttpSubscriber

/-- C1 (counterexample): an authenticated request whose body unmarshals,
arriving while the service is started but the internal buffered channel
is full (100 of 100 slots used), is not answered with 503 — the handler
blocks in the channel send inside `publish` instead. -/
theorem c1_counterexample :
    defaultBufferSize ≤ defaultBufferSize ∧
    handleMessage .tokenVerified true .started defaultBufferSize defaultBufferSize .acked
      = .blockedOnPublish ∧
    handleMessage .tokenVerified true .started defaultBufferSize defaultBufferSize .acked
      ≠ .status 503 := by
  refine ⟨le_rfl, rfl, ?_⟩
  decide

/-- C1 (amended): for an authenticated request whose body unmarshals, the
handler responds 503 exactly when the service is not in `Started` state
at publish time; when the service is started and the buffer is full the
handler blocks in the channel send instead of responding. -/
theorem c1_publish_503 (auth : AuthOutcome) (unmarshalOk : Bool) (st : LState)
    (pubLen cap : Nat) (ev : RespondEvent)
    (hauth : auth = .tokenVerified ∨ ∃ a, auth = .sigVerified a)
    (hun : unmarshalOk = true) :
    (st ≠ .started → handleMessage auth unmarshalOk st pubLen cap ev = .status 503) ∧
    (st = .started → cap ≤ pubLen →
      handleMessage auth unmarshalOk st pubLen cap ev = .blockedOnPublish) := by
  have hform : ∀ st', handleMessage auth unmarshalOk st' pubLen cap ev =
      (match publishOutcome st' pubLen cap with
       | .errNotStarted => .status 503
       | .blocked => .blockedOnPublish
       | .sent => .status (respondStatus ev)) := by
    intro st'
    rcases hauth with h | ⟨a, h⟩ <;> subst h <;> simp [handleMessage, hun]
  constructor
  · intro hst
    rw [hform, publishOutcome, if_pos hst]
  · intro hst hfull
    rw [hform, publishOutcome, if_neg (by simp [hst]), if_neg (by omega)]

theorem c1_witness :
    ((AuthOutcome.tokenVerified = .tokenVerified ∨
        ∃ a, AuthOutcome.tokenVerified = .sigVerified a) ∧ true = true) ∧
    (LState.stopped ≠ .started →
      handleMessage .tokenVerified true .stopped 0 100 .acked = .status 503) := by
  refine ⟨⟨Or.inl rfl, rfl⟩, ?_⟩
  exact (c1_publish_503 .tokenVerified true .stopped 0 100 .acked (Or.inl rfl) rfl).1

/-- C6: once a message has been queued (service started, buffer not
full, authentication and unmarshalling successful), the handler writes
exactly one status, determined by the first observed event: ack → 200,
nack → 500, request-context cancellation → 500, service stop → 503. -/
theorem c6_respond_statuses (auth : AuthOutcome) (st : LState) (pubLen cap : Nat)
    (hauth : auth = .tokenVerified ∨ ∃ a, auth = .sigVerified a)
    (hst : st = .started) (hroom : pubLen < cap) :
    handleMessage auth true st pubLen cap .acked = .status 200 ∧
    handleMessage auth true st pubLen cap .nacked = .status 500 ∧
    handleMessage auth true st pubLen cap .ctxDone = .status 500 ∧
    handleMessage auth true st pubLen cap .stopped = .status 503 := by
  have hsent : publishOutcome st pubLen cap = .sent := by
    rw [publishOutcome, if_neg (by simp [hst]), if_pos hroom]
  rcases hauth with h | ⟨a, h⟩ <;> subst h <;>
    simp [handleMessage, hsent, respondStatus]

theorem c6_witness :
    handleMessage .tokenVerified true .started 0 100 .acked = .status 200 ∧
    handleMessage .tokenVerified true .started 0 100 .nacked = .status 500 ∧
    handleMessage .tokenVerified true .started 0 100 .ctxDone = .status 500 ∧
    handleMessage .tokenVerified true .started 0 100 .stopped = .status 503 :=
  c6_respond_statuses .tokenVerified .started 0 100 (Or.inl rfl) rfl (by omega)

/-- The inductive invariant of the stop/publisher handshake: `done` is
closed only by the exiting publisher, and `msgChan` is closed only after
`done`. -/
def HandshakeInv (s : SubSt) : Prop :=
  (s.doneClosed = true → s.pub = .exited) ∧
  (s.msgChanClosed = true → s.doneClosed = true)

lemma handshakeInv_of_reachable {s : SubSt} (h : Reachable s) : HandshakeInv s := by
  induction h with
  | init => exact ⟨by simp [initSt], by simp [initSt]⟩
  | step _ hstep ih =>
    obtain ⟨ih₁, ih₂⟩ := ih
    cases hstep with
    | stopBegin h₁ => exact ⟨ih₁, ih₂⟩
    | stopFinish h₁ h₂ => exact ⟨ih₁, fun _ => h₂⟩
    | pubRecv h₁ =>
      refine ⟨fun hd => ?_, ih₂⟩
      have h' := ih₁ hd
      simp [h₁] at h'
    | pubSendDone h₁ =>
      refine ⟨fun hd => ?_, ih₂⟩
      have h' := ih₁ hd
      simp [h₁] at h'
    | pubStop h₁ h₂ => exact ⟨fun _ => rfl, fun _ => rfl⟩

/-- C7: in every reachable state of the HTTP subscriber's stop/publisher
handshake, `msgChan` is never closed while the publisher goroutine is
still sending into it, so the send-on-closed-channel panic cannot
occur. -/
theorem c7_msgchan_close_safe (s : SubSt) (h : Reachable s) :
    ¬(s.msgChanClosed = true ∧ s.pub = .sending) := by
  rintro ⟨hclosed, hsending⟩
  obtain ⟨inv₁, inv₂⟩ := handshakeInv_of_reachable h
  have := inv₁ (inv₂ hclosed)
  rw [hsending] at this
  cases this

theorem c7_witness :
    ¬((SubSt.mk .exited .finished true true true).msgChanClosed = true ∧
      (SubSt.mk .exited .finished true true true).pub = .sending) := by
  have h1 : Step initSt (SubSt.mk .running .waitingDone true false false) :=
    Step.stopBegin initSt rfl
  have h2 : Step (SubSt.mk .running .waitingDone true false false)
      (SubSt.mk .exited .waitingDone true true false) :=
    Step.pubStop _ rfl rfl
  have h3 : Step (SubSt.mk .exited .waitingDone true true false)
      (SubSt.mk .exited .finished true true true) :=
    Step.stopFinish _ rfl rfl
  exact c7_msgchan_close_safe _
    (((Reachable.init.step h1).step h2).step h3)

end HttpSubscriber

namespace Policy

/-- C8: retrieving the witness-policy configuration fails with
`failed to retrieve policy from policy cache (nil value)` when the cache
returns `nil`, and with `unexpected interface '<type>' for witness policy
value in policy cache` when it returns a value of non-string dynamic
type. -/
theorem c8_cache_value_errors (typeName : String) :
    getWitnessPolicyConfig (.ok .nilValue) =
      .error "failed to retrieve policy from policy cache (nil value)" ∧
    getWitnessPolicyConfig (.ok (.otherValue typeName)) =
      .error ("unexpected interface '" ++ typeName ++
        "' for witness policy value in policy cache") := by
  exact ⟨rfl, rfl⟩

/-- C4 (counterexample): with the default policy plus `LogRequired` and a
single batch witness that has a proof but no log (plus a system witness
with log and proof), the claim's reading — restrict the role set `W` by
the log filter before taking `|W|`, so the batch `W` is empty and the
leaf vacuously true — predicts `Evaluate = true`, while the behaviour
fixed by the repository's test (`default policy fails with log
required`) is `Evaluate = false`: the witness without a log still counts
in `|W|` but its proof does not count as present. -/
theorem c4_counterexample :
    specMinPercentHolds ⟨.minPercent 100, .minPercent 100, .conj, true⟩ 100
      [⟨⟨.batch, "https://batch.com/service", false⟩, [1]⟩,
       ⟨⟨.system, "https://system.com/service", true⟩, [1]⟩] .batch = true ∧
    ruleHolds ⟨.minPercent 100, .minPercent 100, .conj, true⟩ (.minPercent 100)
      (roleProofs
        [⟨⟨.batch, "https://batch.com/service", false⟩, [1]⟩,
         ⟨⟨.system, "https://system.com/service", true⟩, [1]⟩] .batch) = false ∧
    specEvaluate ⟨.minPercent 100, .minPercent 100, .conj, true⟩
      [⟨⟨.batch, "https://batch.com/service", false⟩, [1]⟩,
       ⟨⟨.system, "https://system.com/service", true⟩, [1]⟩] = true ∧
    evaluate ⟨.minPercent 100, .minPercent 100, .conj, true⟩
      [⟨⟨.batch, "https://batch.com/service", false⟩, [1]⟩,
       ⟨⟨.system, "https://system.com/service", true⟩, [1]⟩] = false := by
  refine ⟨rfl, rfl, rfl, rfl⟩

/-- C4 (amended): a `MinPercent(p, role)` leaf evaluates over the full
role partition `W` (not restricted by `LogRequired`): it is true whenever
`W` is empty, and otherwise true iff the number of present proofs of
log-passing witnesses in `W`, times 100, is at least `p·|W|`. -/
theorem c4_minpercent_leaf (cfg : WitnessPolicyConfig) (p : Nat)
    (proofs : List WitnessProof) (t : WitnessType) :
    ruleHolds cfg (.minPercent p) (roleProofs proofs t) = true ↔
      (roleProofs proofs t = [] ∨
        p * (roleProofs proofs t).length ≤
          presentCount cfg (roleProofs proofs t) * 100) := by
  simp [ruleHolds, ruleHoldsCnt, List.length_eq_zero]

lemma mem_roleAll {ws : List Witness} {t : WitnessType} {w : Witness} :
    w ∈ roleAll ws t ↔ w ∈ ws ∧ w.wtype = t := by
  simp [roleAll]

lemma rolePoolLog_subset_roleAll (cfg : WitnessPolicyConfig) (ws : List Witness)
    (t : WitnessType) : rolePoolLog cfg ws t ⊆ roleAll ws t :=
  fun _ h => List.mem_of_mem_filter h

lemma eligible_subset_rolePoolLog (cfg : WitnessPolicyConfig) (ws excl : List Witness)
    (t : WitnessType) : eligiblePool cfg ws excl t ⊆ rolePoolLog cfg ws t :=
  fun _ h => List.mem_of_mem_filter h

lemma wtype_of_mem_rolePoolLog {cfg : WitnessPolicyConfig} {ws : List Witness}
    {t : WitnessType} {w : Witness} (h : w ∈ rolePoolLog cfg ws t) : w.wtype = t :=
  (mem_roleAll.mp (rolePoolLog_subset_roleAll cfg ws t h)).2

lemma nodup_roleAll {ws : List Witness} (hnd : ws.Nodup) (t : WitnessType) :
    (roleAll ws t).Nodup :=
  hnd.filter _

lemma nodup_rolePoolLog {ws : List Witness} (hnd : ws.Nodup)
    (cfg : WitnessPolicyConfig) (t : WitnessType) : (rolePoolLog cfg ws t).Nodup :=
  (nodup_roleAll hnd t).filter _

lemma nodup_eligible {ws : List Witness} (hnd : ws.Nodup)
    (cfg : WitnessPolicyConfig) (excl : List Witness) (t : WitnessType) :
    (eligiblePool cfg ws excl t).Nodup :=
  (nodup_rolePoolLog hnd cfg t).filter _

lemma roleProofs_asIf (ws X : List Witness) (t : WitnessType) :
    roleProofs (asIfProofs ws X) t
      = (roleAll ws t).map (fun w => ⟨w, if w ∈ X then [1] else []⟩) := by
  induction ws with
  | nil => rfl
  | cons w ws ih =>
    simp only [asIfProofs, List.map_cons, roleProofs, List.filter_cons, roleAll] at ih ⊢
    by_cases h : w.wtype == t <;> simp [h, ih]

lemma length_roleProofs_asIf (ws X : List Witness) (t : WitnessType) :
    (roleProofs (asIfProofs ws X) t).length = (roleAll ws t).length := by
  rw [roleProofs_asIf, List.length_map]

lemma presentCount_asIf (cfg : WitnessPolicyConfig) (ws X : List Witness)
    (t : WitnessType) :
    presentCount cfg (roleProofs (asIfProofs ws X) t) = cntIn cfg ws t X := by
  rw [roleProofs_asIf]
  unfold presentCount cntIn rolePoolLog
  generalize roleAll ws t = l
  induction l with
  | nil => rfl
  | cons w l ih =>
    simp only [List.map_cons, List.filter_cons]
    by_cases hl : logOk cfg.logRequired w
    · by_cases hx : w ∈ X <;> simp [hl, hx, ih]
    · simp [hl, ih]

lemma evaluate_asIf (cfg : WitnessPolicyConfig) (ws X : List Witness) :
    evaluate cfg (asIfProofs ws X) =
      (match cfg.op with
       | .conj =>
         ruleHoldsCnt cfg.batchRule (roleAll ws .batch).length (cntIn cfg ws .batch X)
           && ruleHoldsCnt cfg.systemRule (roleAll ws .system).length (cntIn cfg ws .system X)
       | .disj =>
         ruleHoldsCnt cfg.batchRule (roleAll ws .batch).length (cntIn cfg ws .batch X)
           || ruleHoldsCnt cfg.systemRule (roleAll ws .system).length (cntIn cfg ws .system X)) := by
  unfold evaluate ruleHolds
  rw [length_roleProofs_asIf, length_roleProofs_asIf, presentCount_asIf, presentCount_asIf]

lemma ruleHoldsCnt_iff (r : Rule) (n c : Nat) :
    ruleHoldsCnt r n c = true ↔ requiredCount r n ≤ c := by
  cases r with
  | minPercent p =>
    simp only [ruleHoldsCnt, requiredCount, ceilPct, Bool.or_eq_true, beq_iff_eq,
      decide_eq_true_eq]
    rcases Nat.eq_zero_or_pos n with h0 | hpos
    · subst h0
      simp only [Nat.mul_zero, eq_self_iff_true, true_or, true_iff]
      omega
    · have hn : n ≠ 0 := by omega
      simp only [hn, false_or]
      generalize p * n = a
      omega
  | outOf m => simp [ruleHoldsCnt, requiredCount]

lemma filter_mem_length_eq {pool A : List Witness} (hpool : pool.Nodup)
    (hA : A.Nodup) (hsub : ∀ x ∈ A, x ∈ pool) :
    (pool.filter (fun x => decide (x ∈ A))).length = A.length := by
  have hperm : List.Perm (pool.filter (fun x => decide (x ∈ A))) A := by
    rw [List.perm_ext_iff_of_nodup (hpool.filter _) hA]
    intro x
    simp only [List.mem_filter, decide_eq_true_eq]
    exact ⟨fun h => h.2, fun h => ⟨hsub x h, h⟩⟩
  exact hperm.length_eq

lemma filter_mem_length_le {pool X : List Witness} (hpool : pool.Nodup) :
    (pool.filter (fun x => decide (x ∈ X))).length ≤ X.length := by
  refine List.Subperm.length_le ((hpool.filter _).subperm ?_)
  intro x hx
  have := List.of_mem_filter hx
  simpa using this

lemma cntIn_nil (cfg : WitnessPolicyConfig) (ws : List Witness) (t : WitnessType) :
    cntIn cfg ws t [] = 0 := by
  simp [cntIn]

lemma cntIn_le {ws : List Witness} (hnd : ws.Nodup) (cfg : WitnessPolicyConfig)
    (t : WitnessType) (X : List Witness) : cntIn cfg ws t X ≤ X.length :=
  filter_mem_length_le (nodup_rolePoolLog hnd cfg t)

lemma cntIn_add_le {ws : List Witness} (hnd : ws.Nodup)
    (cfg : WitnessPolicyConfig) (X : List Witness) :
    cntIn cfg ws .batch X + cntIn cfg ws .system X ≤ X.length := by
  set A := (rolePoolLog cfg ws .batch).filter (fun x => decide (x ∈ X)) with hAdef
  set B := (rolePoolLog cfg ws .system).filter (fun x => decide (x ∈ X)) with hBdef
  have hAnd : A.Nodup := (nodup_rolePoolLog hnd cfg .batch).filter _
  have hBnd : B.Nodup := (nodup_rolePoolLog hnd cfg .system).filter _
  have hdisj : ∀ x ∈ A, x ∉ B := by
    intro x hxA hxB
    have h1 : x.wtype = .batch :=
      wtype_of_mem_rolePoolLog (List.mem_of_mem_filter hxA)
    have h2 : x.wtype = .system :=
      wtype_of_mem_rolePoolLog (List.mem_of_mem_filter hxB)
    rw [h1] at h2
    cases h2
  have hnd' : (A ++ B).Nodup := by
    refine List.Nodup.append hAnd hBnd ?_
    intro x hxA hxB
    exact hdisj x hxA hxB
  have hsub : A ++ B ⊆ X := by
    intro x hx
    rcases List.mem_append.mp hx with h | h
    · simpa using List.of_mem_filter h
    · simpa using List.of_mem_filter h
  have := List.Subperm.length_le (hnd'.subperm hsub)
  simpa [cntIn, List.length_append] using this

lemma viable_le {cfg : WitnessPolicyConfig} {ws excl : List Witness}
    {t : WitnessType} (h : viable cfg ws excl t = true) :
    reqOf cfg ws t ≤ (eligiblePool cfg ws excl t).length := by
  simp only [viable, Bool.and_eq_true, decide_eq_true_eq] at h
  exact h.1

lemma select_conj_spec {cfg : WitnessPolicyConfig} {ws excl S : List Witness}
    (hop : cfg.op = .conj) (hsel : select cfg ws excl = .ok S) :
    reqOf cfg ws .batch ≤ (eligiblePool cfg ws excl .batch).length ∧
    reqOf cfg ws .system ≤ (eligiblePool cfg ws excl .system).length ∧
    S = (eligiblePool cfg ws excl .batch).take (reqOf cfg ws .batch)
      ++ (eligiblePool cfg ws excl .system).take (reqOf cfg ws .system) := by
  rw [select, hop] at hsel
  by_cases hB : (eligiblePool cfg ws excl .batch).length < reqOf cfg ws .batch
  · simp [pickRole, hB] at hsel
  · by_cases hS : (eligiblePool cfg ws excl .system).length < reqOf cfg ws .system
    · simp [pickRole, hB, hS] at hsel
    · simp only [pickRole, hB, if_false, hS, Except.ok.injEq] at hsel
      exact ⟨by omega, by omega, hsel.symm⟩

lemma select_disj_spec {cfg : WitnessPolicyConfig} {ws excl S : List Witness}
    (hop : cfg.op = .disj) (hsel : select cfg ws excl = .ok S) :
    (viable cfg ws excl .batch = true ∧
      (viable cfg ws excl .system = false ∨ reqOf cfg ws .batch ≤ reqOf cfg ws .system) ∧
      S = (eligiblePool cfg ws excl .batch).take (reqOf cfg ws .batch)) ∨
    (viable cfg ws excl .system = true ∧
      (viable cfg ws excl .batch = false ∨ reqOf cfg ws .system < reqOf cfg ws .batch) ∧
      S = (eligiblePool cfg ws excl .system).take (reqOf cfg ws .system)) := by
  rw [select, hop] at hsel
  by_cases h1 : (viable cfg ws excl .batch &&
      (!viable cfg ws excl .system || decide (reqOf cfg ws .batch ≤ reqOf cfg ws .system))) = true
  · left
    rw [if_pos h1] at hsel
    simp only [Bool.and_eq_true, Bool.or_eq_true, Bool.not_eq_true',
      decide_eq_true_eq] at h1
    exact ⟨h1.1, h1.2, (Except.ok.injEq _ _).mp hsel |>.symm⟩
  · by_cases h2 : viable cfg ws excl .system = true
    · right
      rw [if_neg h1, if_pos h2] at hsel
      refine ⟨h2, ?_, (Except.ok.injEq _ _).mp hsel |>.symm⟩
      by_cases hvB : viable cfg ws excl .batch = true
      · right
        by_contra hlt
        have hle : reqOf cfg ws .batch ≤ reqOf cfg ws .system := by omega
        exact h1 (by simp [hvB, h2, hle])
      · exact Or.inl (by simpa using hvB)
    · rw [if_neg h1, if_neg h2] at hsel
      cases hsel

lemma cntIn_eq_length_of_subset {ws A excl : List Witness} (hnd : ws.Nodup)
    (cfg : WitnessPolicyConfig) {t : WitnessType} (hA : A.Nodup)
    (hsub : A ⊆ eligiblePool cfg ws excl t) :
    cntIn cfg ws t A = A.length := by
  refine filter_mem_length_eq (nodup_rolePoolLog hnd cfg t) hA ?_
  intro x hx
  exact eligible_subset_rolePoolLog cfg ws excl t (hsub hx)

lemma cntIn_eq_zero_of_other {ws A excl : List Witness} (cfg : WitnessPolicyConfig)
    {t t' : WitnessType} (hne : t' ≠ t)
    (hsub : A ⊆ eligiblePool cfg ws excl t) : cntIn cfg ws t' A = 0 := by
  unfold cntIn
  have hcong : ∀ x ∈ rolePoolLog cfg ws t',
      (fun w => decide (w ∈ A)) x = (fun _ : Witness => false) x := by
    intro x hx
    simp only [decide_eq_false_iff_not]
    intro hxA
    have h1 := wtype_of_mem_rolePoolLog hx
    have h2 := wtype_of_mem_rolePoolLog (eligible_subset_rolePoolLog cfg ws excl t (hsub hxA))
    rw [h1] at h2
    exact hne h2
  rw [List.filter_congr hcong, List.filter_false]
  rfl

lemma cntIn_append_roles {ws A B excl : List Witness} (cfg : WitnessPolicyConfig)
    (hA : A ⊆ eligiblePool cfg ws excl .batch)
    (hB : B ⊆ eligiblePool cfg ws excl .system) :
    cntIn cfg ws .batch (A ++ B) = cntIn cfg ws .batch A ∧
    cntIn cfg ws .system (A ++ B) = cntIn cfg ws .system B := by
  constructor <;>
  · unfold cntIn
    apply congrArg List.length
    apply List.filter_congr
    intro x hx
    have hxt := wtype_of_mem_rolePoolLog hx
    simp only [decide_eq_decide, List.mem_append]
    constructor
    · rintro (h | h)
      · first
        | exact h
        | · exfalso
            have := wtype_of_mem_rolePoolLog
              (eligible_subset_rolePoolLog cfg ws excl _ (hA h))
            rw [hxt] at this
            cases this
      · first
        | exact h
        | · exfalso
            have := wtype_of_mem_rolePoolLog
              (eligible_subset_rolePoolLog cfg ws excl _ (hB h))
            rw [hxt] at this
            cases this
    · intro h
      first
      | exact Or.inl h
      | exact Or.inr h

lemma evaluate_asIf_conj {cfg : WitnessPolicyConfig} (ws : List Witness)
    (hop : cfg.op = .conj) (X : List Witness) :
    (evaluate cfg (asIfProofs ws X) = true) ↔
      (reqOf cfg ws .batch ≤ cntIn cfg ws .batch X ∧
       reqOf cfg ws .system ≤ cntIn cfg ws .system X) := by
  rw [evaluate_asIf, hop]
  simp only [Bool.and_eq_true, ruleHoldsCnt_iff, reqOf, ruleOf]

lemma evaluate_asIf_disj {cfg : WitnessPolicyConfig} (ws : List Witness)
    (hop : cfg.op = .disj) (X : List Witness) :
    (evaluate cfg (asIfProofs ws X) = true) ↔
      (reqOf cfg ws .batch ≤ cntIn cfg ws .batch X ∨
       reqOf cfg ws .system ≤ cntIn cfg ws .system X) := by
  rw [evaluate_asIf, hop]
  simp only [Bool.or_eq_true, ruleHoldsCnt_iff, reqOf, ruleOf]

lemma c3_mem {cfg : WitnessPolicyConfig} {ws excl S : List Witness}
    (hsel : select cfg ws excl = .ok S) :
    ∀ w ∈ S, w ∈ eligiblePool cfg ws excl .batch ∨
      w ∈ eligiblePool cfg ws excl .system := by
  intro w hw
  cases hop : cfg.op with
  | conj =>
    obtain ⟨hB, hS, hSeq⟩ := select_conj_spec hop hsel
    rw [hSeq] at hw
    rcases List.mem_append.mp hw with h | h
    · exact Or.inl (List.take_subset _ _ h)
    · exact Or.inr (List.take_subset _ _ h)
  | disj =>
    rcases select_disj_spec hop hsel with ⟨_, _, hSeq⟩ | ⟨_, _, hSeq⟩
    · rw [hSeq] at hw
      exact Or.inl (List.take_subset _ _ hw)
    · rw [hSeq] at hw
      exact Or.inr (List.take_subset _ _ hw)

lemma c3_nodup {cfg : WitnessPolicyConfig} {ws excl S : List Witness}
    (hnd : ws.Nodup) (hsel : select cfg ws excl = .ok S) : S.Nodup := by
  have htB : ∀ n, ((eligiblePool cfg ws excl .batch).take n).Nodup := by
    intro n
    exact (List.take_sublist n _).nodup (nodup_eligible hnd cfg excl .batch)
  have htS : ∀ n, ((eligiblePool cfg ws excl .system).take n).Nodup := by
    intro n
    exact (List.take_sublist n _).nodup (nodup_eligible hnd cfg excl .system)
  cases hop : cfg.op with
  | conj =>
    obtain ⟨hB, hS, hSeq⟩ := select_conj_spec hop hsel
    rw [hSeq]
    refine List.Nodup.append (htB _) (htS _) ?_
    intro x hx hx'
    have h1 := wtype_of_mem_rolePoolLog
      (eligible_subset_rolePoolLog cfg ws excl .batch (List.take_subset _ _ hx))
    have h2 := wtype_of_mem_rolePoolLog
      (eligible_subset_rolePoolLog cfg ws excl .system (List.take_subset _ _ hx'))
    rw [h1] at h2
    cases h2
  | disj =>
    rcases select_disj_spec hop hsel with ⟨_, _, hSeq⟩ | ⟨_, _, hSeq⟩
    · rw [hSeq]; exact htB _
    · rw [hSeq]; exact htS _

lemma c3_sat {cfg : WitnessPolicyConfig} {ws excl S : List Witness}
    (hnd : ws.Nodup) (hsel : select cfg ws excl = .ok S) :
    evaluate cfg (asIfProofs ws S) = true := by
  cases hop : cfg.op with
  | conj =>
    obtain ⟨hB, hS, hSeq⟩ := select_conj_spec hop hsel
    rw [evaluate_asIf_conj ws hop]
    have hsubB : (eligiblePool cfg ws excl .batch).take (reqOf cfg ws .batch)
        ⊆ eligiblePool cfg ws excl .batch := List.take_subset _ _
    have hsubS : (eligiblePool cfg ws excl .system).take (reqOf cfg ws .system)
        ⊆ eligiblePool cfg ws excl .system := List.take_subset _ _
    have hndB := (List.take_sublist (reqOf cfg ws .batch) _).nodup
      (nodup_eligible hnd cfg excl .batch)
    have hndS := (List.take_sublist (reqOf cfg ws .system) _).nodup
      (nodup_eligible hnd cfg excl .system)
    obtain ⟨hcB, hcS⟩ := cntIn_append_roles cfg hsubB hsubS
    rw [hSeq, hcB, hcS, cntIn_eq_length_of_subset hnd cfg hndB hsubB,
      cntIn_eq_length_of_subset hnd cfg hndS hsubS, List.length_take,
      List.length_take, Nat.min_eq_left hB, Nat.min_eq_left hS]
    exact ⟨le_refl _, le_refl _⟩
  | disj =>
    rw [evaluate_asIf_disj ws hop]
    rcases select_disj_spec hop hsel with ⟨hvB, _, hSeq⟩ | ⟨hvS, _, hSeq⟩
    · left
      have hsubB : S ⊆ eligiblePool cfg ws excl .batch := by
        rw [hSeq]; exact List.take_subset _ _
      have hndB : S.Nodup := c3_nodup hnd hsel
      rw [cntIn_eq_length_of_subset hnd cfg hndB hsubB, hSeq, List.length_take,
        Nat.min_eq_left (viable_le hvB)]
    · right
      have hsubS : S ⊆ eligiblePool cfg ws excl .system := by
        rw [hSeq]; exact List.take_subset _ _
      have hndS : S.Nodup := c3_nodup hnd hsel
      rw [cntIn_eq_length_of_subset hnd cfg hndS hsubS, hSeq, List.length_take,
        Nat.min_eq_left (viable_le hvS)]

lemma c3_min {cfg : WitnessPolicyConfig} {ws excl S : List Witness}
    (hnd : ws.Nodup) (hsel : select cfg ws excl = .ok S)
    (hzero : evaluate cfg (asIfProofs ws []) = false) :
    ∀ X : List Witness, X.Nodup →
      (∀ w ∈ X, w ∈ eligiblePool cfg ws excl .batch ∨
        w ∈ eligiblePool cfg ws excl .system) →
      evaluate cfg (asIfProofs ws X) = true → S.length ≤ X.length := by
  intro X hXnd hXsub hXeval
  cases hop : cfg.op with
  | conj =>
    obtain ⟨hB, hS, hSeq⟩ := select_conj_spec hop hsel
    rw [evaluate_asIf_conj ws hop] at hXeval
    obtain ⟨h1, h2⟩ := hXeval
    have hsum := cntIn_add_le hnd cfg X
    have hSlen : S.length = reqOf cfg ws .batch + reqOf cfg ws .system := by
      rw [hSeq, List.length_append, List.length_take, List.length_take,
        Nat.min_eq_left hB, Nat.min_eq_left hS]
    omega
  | disj =>
    have hzero' : ¬(reqOf cfg ws .batch ≤ cntIn cfg ws .batch [] ∨
        reqOf cfg ws .system ≤ cntIn cfg ws .system []) := by
      rw [← evaluate_asIf_disj ws hop]
      simp [hzero]
    rw [cntIn_nil, cntIn_nil] at hzero'
    push_neg at hzero'
    obtain ⟨hrB, hrS⟩ := hzero'
    rw [evaluate_asIf_disj ws hop] at hXeval
    rcases hXeval with h1 | h1
    · -- the batch leaf is satisfied by X
      have hsubB : (rolePoolLog cfg ws .batch).filter (fun x => decide (x ∈ X))
          ⊆ eligiblePool cfg ws excl .batch := by
        intro x hx
        have hxp := List.mem_of_mem_filter hx
        have hxX : x ∈ X := by simpa using List.of_mem_filter hx
        rcases hXsub x hxX with h | h
        · exact h
        · exfalso
          have hb := wtype_of_mem_rolePoolLog hxp
          have hs := wtype_of_mem_rolePoolLog
            (eligible_subset_rolePoolLog cfg ws excl .system h)
          rw [hb] at hs
          cases hs
      have hfnd : ((rolePoolLog cfg ws .batch).filter (fun x => decide (x ∈ X))).Nodup :=
        (nodup_rolePoolLog hnd cfg .batch).filter _
      have hle1 : cntIn cfg ws .batch X ≤ (eligiblePool cfg ws excl .batch).length :=
        (hfnd.subperm hsubB).length_le
      have hleX : cntIn cfg ws .batch X ≤ X.length := cntIn_le hnd cfg .batch X
      have hpos' : ((rolePoolLog cfg ws .batch).filter (fun x => decide (x ∈ X))) ≠ [] := by
        have hpos : 0 < cntIn cfg ws .batch X := by omega
        unfold cntIn at hpos
        exact List.length_pos.mp hpos
      obtain ⟨x, hx⟩ := List.exists_mem_of_ne_nil _ hpos'
      have hnenil : roleAll ws .batch ≠ [] :=
        List.ne_nil_of_mem
          (rolePoolLog_subset_roleAll cfg ws .batch (List.mem_of_mem_filter hx))
      have hvB : viable cfg ws excl .batch = true := by
        unfold viable
        rw [Bool.and_eq_true]
        refine ⟨by simp only [decide_eq_true_eq]; omega, ?_⟩
        rw [Bool.not_eq_true']
        cases hrA : roleAll ws .batch with
        | nil => exact absurd hrA hnenil
        | cons a l => rfl
      rcases select_disj_spec hop hsel with ⟨hvB', _, hSeq⟩ | ⟨hvS', halt, hSeq⟩
      · have hSlen : S.length = reqOf cfg ws .batch := by
          rw [hSeq, List.length_take, Nat.min_eq_left (viable_le hvB')]
        omega
      · rcases halt with hf | hlt
        · rw [hvB] at hf
          cases hf
        · have hSlen : S.length = reqOf cfg ws .system := by
            rw [hSeq, List.length_take, Nat.min_eq_left (viable_le hvS')]
          omega
    · -- the system leaf is satisfied by X
      have hsubS : (rolePoolLog cfg ws .system).filter (fun x => decide (x ∈ X))
          ⊆ eligiblePool cfg ws excl .system := by
        intro x hx
        have hxp := List.mem_of_mem_filter hx
        have hxX : x ∈ X := by simpa using List.of_mem_filter hx
        rcases hXsub x hxX with h | h
        · exfalso
          have hb := wtype_of_mem_rolePoolLog hxp
          have hs := wtype_of_mem_rolePoolLog
            (eligible_subset_rolePoolLog cfg ws excl .batch h)
          rw [hb] at hs
          cases hs
        · exact h
      have hfnd : ((rolePoolLog cfg ws .system).filter (fun x => decide (x ∈ X))).Nodup :=
        (nodup_rolePoolLog hnd cfg .system).filter _
      have hle1 : cntIn cfg ws .system X ≤ (eligiblePool cfg ws excl .system).length :=
        (hfnd.subperm hsubS).length_le
      have hleX : cntIn cfg ws .system X ≤ X.length := cntIn_le hnd cfg .system X
      have hpos' : ((rolePoolLog cfg ws .system).filter (fun x => decide (x ∈ X))) ≠ [] := by
        have hpos : 0 < cntIn cfg ws .system X := by omega
        unfold cntIn at hpos
        exact List.length_pos.mp hpos
      obtain ⟨x, hx⟩ := List.exists_mem_of_ne_nil _ hpos'
      have hnenil : roleAll ws .system ≠ [] :=
        List.ne_nil_of_mem
          (rolePoolLog_subset_roleAll cfg ws .system (List.mem_of_mem_filter hx))
      have hvS : viable cfg ws excl .system = true := by
        unfold viable
        rw [Bool.and_eq_true]
        refine ⟨by simp only [decide_eq_true_eq]; omega, ?_⟩
        rw [Bool.not_eq_true']
        cases hrA : roleAll ws .system with
        | nil => exact absurd hrA hnenil
        | cons a l => rfl
      rcases select_disj_spec hop hsel with ⟨hvB', halt, hSeq⟩ | ⟨hvS', _, hSeq⟩
      · rcases halt with hf | hle
        · rw [hvS] at hf
          cases hf
        · have hSlen : S.length = reqOf cfg ws .batch := by
            rw [hSeq, List.length_take, Nat.min_eq_left (viable_le hvB')]
          omega
      · have hSlen : S.length = reqOf cfg ws .system := by
          rw [hSeq, List.length_take, Nat.min_eq_left (viable_le hvS')]
        omega

lemma c3_or_choice {cfg : WitnessPolicyConfig} {ws excl S : List Witness}
    (hsel : select cfg ws excl = .ok S) (hop : cfg.op = .disj)
    (hvB : viable cfg ws excl .batch = true)
    (hvS : viable cfg ws excl .system = true) :
    S.length = min (reqOf cfg ws .batch) (reqOf cfg ws .system) := by
  rcases select_disj_spec hop hsel with ⟨_, halt, hSeq⟩ | ⟨_, halt, hSeq⟩
  · rcases halt with hf | hle
    · rw [hvS] at hf
      cases hf
    · rw [hSeq, List.length_take, Nat.min_eq_left (viable_le hvB),
        Nat.min_eq_left hle]
  · rcases halt with hf | hlt
    · rw [hvB] at hf
      cases hf
    · rw [hSeq, List.length_take, Nat.min_eq_left (viable_le hvS),
        Nat.min_eq_right (Nat.le_of_lt hlt)]

/-- C3 (counterexample): for the policy
`MinPercent(50,system) OR MinPercent(50,batch) LogRequired` over the
single system witness with a log (as in the repository's `policy with OR
(system witnesses selected)` test), `Select` returns that one witness —
yet the empty set already satisfies the policy under the as-if-proved
evaluation, because the batch role is empty and a `MinPercent` leaf on an
empty role set is vacuously true.  So the returned set is not a smallest
satisfying subset and has a strict subset that satisfies the policy. -/
theorem c3_counterexample :
    select ⟨.minPercent 50, .minPercent 50, .disj, true⟩
      [⟨.system, "https://system.com/service", true⟩] []
      = .ok [⟨.system, "https://system.com/service", true⟩] ∧
    ([] : List Witness).length <
      [Witness.mk .system "https://system.com/service" true].length ∧
    evaluate ⟨.minPercent 50, .minPercent 50, .disj, true⟩
      (asIfProofs [⟨.system, "https://system.com/service", true⟩] []) = true := by
  exact ⟨rfl, Nat.zero_lt_one, rfl⟩

/-- C3 (amended): when `Select` succeeds on a duplicate-free witness
list, the returned set `S` consists of eligible witnesses (exclusions
and, under `LogRequired`, witnesses without a log are removed), and the
policy is satisfied when exactly the members of `S` have proofs.
Provided the policy is not already satisfied when no witness has a proof,
`S` is a smallest such set: every duplicate-free set of eligible
witnesses whose as-if evaluation satisfies the policy is at least as
large, and consequently no strict subset of `S` satisfies the policy.
For an `OR` of two role leaves with both branches viable, the branch
requiring fewer witnesses is chosen. -/
theorem c3_select_minimal (cfg : WitnessPolicyConfig) (ws excl S : List Witness)
    (hnd : ws.Nodup) (hsel : select cfg ws excl = .ok S) :
    (∀ w ∈ S, w ∈ eligiblePool cfg ws excl .batch ∨
      w ∈ eligiblePool cfg ws excl .system) ∧
    evaluate cfg (asIfProofs ws S) = true ∧
    (evaluate cfg (asIfProofs ws []) = false →
      ∀ X : List Witness, X.Nodup →
        (∀ w ∈ X, w ∈ eligiblePool cfg ws excl .batch ∨
          w ∈ eligiblePool cfg ws excl .system) →
        evaluate cfg (asIfProofs ws X) = true → S.length ≤ X.length) ∧
    (evaluate cfg (asIfProofs ws []) = false →
      ∀ S' : List Witness, S'.Nodup → S' ⊆ S → (∃ w, w ∈ S ∧ w ∉ S') →
        evaluate cfg (asIfProofs ws S') = false) ∧
    (cfg.op = .disj → viable cfg ws excl .batch = true →
      viable cfg ws excl .system = true →
      S.length = min (reqOf cfg ws .batch) (reqOf cfg ws .system)) := by
  refine ⟨c3_mem hsel, c3_sat hnd hsel, fun hz => c3_min hnd hsel hz, ?_, ?_⟩
  · rintro hz S' hS'nd hS'sub ⟨w, hwS, hwS'⟩
    rcases Bool.eq_false_or_eq_true (evaluate cfg (asIfProofs ws S')) with h | h
    swap
    · exact h
    exfalso
    have hS'elig : ∀ x ∈ S', x ∈ eligiblePool cfg ws excl .batch ∨
        x ∈ eligiblePool cfg ws excl .system :=
      fun x hx => c3_mem hsel x (hS'sub hx)
    have hminS' := c3_min hnd hsel hz S' hS'nd hS'elig h
    have hsubE : S' ⊆ S.erase w := by
      intro x hx
      have hxw : x ≠ w := fun he => hwS' (he ▸ hx)
      exact (List.mem_erase_of_ne hxw).mpr (hS'sub hx)
    have hlt : S'.length ≤ (S.erase w).length := (hS'nd.subperm hsubE).length_le
    have heq : (S.erase w).length = S.length - 1 := List.length_erase_of_mem hwS
    have hposS : 0 < S.length := List.length_pos.mpr (List.ne_nil_of_mem hwS)
    omega
  · intro hop hvB hvS
    exact c3_or_choice hsel hop hvB hvS

theorem c3_witness :
    ([Witness.mk .batch "https://batch.com/service" false,
      Witness.mk .system "https://system.com/service" false].Nodup ∧
     select defaultConfig
       [⟨.batch, "https://batch.com/service", false⟩,
        ⟨.system, "https://system.com/service", false⟩] []
       = .ok [⟨.batch, "https://batch.com/service", false⟩,
              ⟨.system, "https://system.com/service", false⟩]) ∧
    evaluate defaultConfig
      (asIfProofs
        [⟨.batch, "https://batch.com/service", false⟩,
         ⟨.system, "https://system.com/service", false⟩]
        [⟨.batch, "https://batch.com/service", false⟩,
         ⟨.system, "https://system.com/service", false⟩]) = true := by
  refine ⟨⟨by decide, rfl⟩, ?_⟩
  exact (c3_select_minimal defaultConfig
    [⟨.batch, "https://batch.com/service", false⟩,
     ⟨.system, "https://system.com/service", false⟩] []
    [⟨.batch, "https://batch.com/service", false⟩,
     ⟨.system, "https://system.com/service", false⟩]
    (by decide) rfl).2.1

/-- C9: when some whitespace-separated token of the policy string is not
a supported rule, parsing fails with `rule not supported: <token>` for
such a token (the first one). -/
theorem c9_rule_not_supported (s : String) (tok : String)
    (hmem : tok ∈ policyTokens s) (hbad : parseToken tok = none) :
    ∃ t, t ∈ policyTokens s ∧ parseToken t = none ∧
      Parse s = .error ("rule not supported: " ++ t) := by
  have hsome : ((policyTokens s).find? (fun t => (parseToken t).isNone)).isSome := by
    rw [List.find?_isSome]
    exact ⟨tok, hmem, by simp [hbad]⟩
  obtain ⟨t, ht⟩ := Option.isSome_iff_exists.mp hsome
  refine ⟨t, List.mem_of_find?_eq_some ht, ?_, ?_⟩
  · have := List.find?_some ht
    simpa using this
  · rw [Parse]
    simp only [ht]

theorem c9_witness :
    ("Test(a,b)" ∈ policyTokens "Test(a,b)" ∧ parseToken "Test(a,b)" = none) ∧
    ∃ t, t ∈ policyTokens "Test(a,b)" ∧ parseToken t = none ∧
      Parse "Test(a,b)" = .error ("rule not supported: " ++ t) := by
  refine ⟨⟨?_, rfl⟩, ?_⟩
  · decide
  · exact c9_rule_not_supported "Test(a,b)" "Test(a,b)" (by decide) rfl

end Policy

namespace PolicyRestHandler

/-- C10: a `/policy` POST whose body cannot be read or does not parse as
a witness policy is answered 400 with nothing written to the config
store; `Put` is invoked only with a successfully parsed body; and when
the body parses but `Put` fails, the handler answers 500. -/
theorem c10_policy_handler (bodyResult : Except String String)
    (parse : String → Except String Policy.WitnessPolicyConfig)
    (putResult : String → Except String Unit) :
    (∀ e, bodyResult = .error e →
      handle bodyResult parse putResult = ⟨400, "Bad Request.", []⟩) ∧
    (∀ b e, bodyResult = .ok b → parse b = .error e →
      handle bodyResult parse putResult = ⟨400, "Bad Request.", []⟩) ∧
    ((handle bodyResult parse putResult).puts ≠ [] →
      ∃ b cfg, bodyResult = .ok b ∧ parse b = .ok cfg ∧
        (handle bodyResult parse putResult).puts = [(witnessPolicyKey, b)]) ∧
    (∀ b cfg e, bodyResult = .ok b → parse b = .ok cfg → putResult b = .error e →
      handle bodyResult parse putResult = ⟨500, "Internal Server Error.",
        [(witnessPolicyKey, b)]⟩) := by
  refine ⟨?_, ?_, ?_, ?_⟩
  · intro e he
    simp [handle, he]
  · intro b e hb hp
    simp [handle, hb, hp]
  · intro hne
    match hb : bodyResult with
    | .error e => simp [handle, hb] at hne
    | .ok b =>
      match hp : parse b with
      | .error e => simp [handle, hp] at hne
      | .ok cfg =>
        refine ⟨b, cfg, rfl, hp, ?_⟩
        match hput : putResult b with
        | .error e => simp [handle, hp, hput]
        | .ok _ => simp [handle, hp, hput]
  · intro b cfg e hb hp hput
    simp [handle, hb, hp, hput]

theorem c10_witness :
    (Except.ok "Test(a,b)" = (.ok "Test(a,b)" : Except String String) ∧
      Policy.Parse "Test(a,b)" = .error "rule not supported: Test(a,b)") ∧
    handle (.ok "Test(a,b)") Policy.Parse (fun _ => .ok ()) =
      ⟨400, "Bad Request.", []⟩ := by
  refine ⟨⟨rfl, rfl⟩, ?_⟩
  exact (c10_policy_handler (.ok "Test(a,b)") Policy.Parse (fun _ => .ok ())).2.1
    "Test(a,b)" "rule not supported: Test(a,b)" rfl rfl

end PolicyRestHandler

end Orb
